import Mathlib

/-!
Verification of the playlist-normalization engine of the `iptv` repository.

The JavaScript sources under `src/scripts/parser.js` (Playlist and Channel
normalization and serialization) and `src/unnamed/part_000` (the pipeline:
sort, dedupe, resolution probe, EPG merge) are embedded shallowly below.
JavaScript strings become `String`, attribute bags become association lists,
`null`/`undefined` string values become `""` (which is exactly JavaScript
falsiness on strings), absent numbers become `Option Nat`.  The helper module
`scripts/utils.js` and the table `scripts/categories.js` are not part of the
source tree, so their functions (`region2codes`, `code2name`,
`language2code`, `getBasename`, the category table) are taken as parameters
of the embedding.
-/

namespace Iptv

/-! ### JavaScript string primitives -/

/-- Whitespace recognised by JavaScript `String.prototype.trim` (ASCII fragment:
space, tab, line feed, vertical tab, form feed, carriage return). -/
def isJsSpace (c : Char) : Bool :=
  c = ' ' || c = '\t' || c = '\n' || c = '\x0b' || c = '\x0c' || c = '\r'

/-- JavaScript `s.trim()` on a character list. -/
def jsTrim (s : List Char) : List Char :=
  ((s.dropWhile isJsSpace).reverse.dropWhile isJsSpace).reverse

/-- JavaScript `s.split(sep)` for a one-character separator: the result is never
empty, `"".split(sep)` is `[""]`, and separators at either end produce empty
fields. -/
def splitChar (sep : Char) : List Char → List (List Char)
  | [] => [[]]
  | c :: cs =>
    match splitChar sep cs with
    | [] => [[c]]
    | g :: gs => if c = sep then [] :: g :: gs else (c :: g) :: gs

/-- JavaScript `s.split(sep)` returning `String`s. -/
def jsSplit (sep : Char) (s : String) : List String :=
  (splitChar sep s.toList).map List.asString

/-- Is `c` an ASCII lower-case letter? -/
def isLowerAscii (c : Char) : Bool :=
  97 ≤ c.toNat && c.toNat ≤ 122

/-- Is `c` an ASCII upper-case letter? -/
def isUpperAscii (c : Char) : Bool :=
  65 ≤ c.toNat && c.toNat ≤ 90

/-- JavaScript `toUpperCase` on one character (ASCII fragment): a lower-case
letter moves down 32 code points, everything else is untouched. -/
def upChar (c : Char) : Char :=
  if h : 97 ≤ c.toNat ∧ c.toNat ≤ 122 then
    ⟨⟨c.toNat - 32, by omega⟩, Or.inl (by omega : c.toNat - 32 < 55296)⟩
  else c

/-- JavaScript `toLowerCase` on one character (ASCII fragment). -/
def downChar (c : Char) : Char :=
  if h : 65 ≤ c.toNat ∧ c.toNat ≤ 90 then
    ⟨⟨c.toNat + 32, by omega⟩, Or.inl (by omega : c.toNat + 32 < 55296)⟩
  else c

/-- JavaScript `s.toUpperCase()` (ASCII fragment). -/
def jsUpper (s : String) : String := (s.toList.map upChar).asString

/-- JavaScript `s.toLowerCase()` (ASCII fragment). -/
def jsLower (s : String) : String := (s.toList.map downChar).asString

/-- JavaScript `parseInt` on a run of decimal digits. -/
def digitsToNat (ds : List Char) : Nat :=
  ds.foldl (fun n c => 10 * n + (c.toNat - 48)) 0

theorem upChar_toNat_of_lower (c : Char) (h : 97 ≤ c.toNat ∧ c.toNat ≤ 122) :
    (upChar c).toNat = c.toNat - 32 := by
  unfold upChar
  rw [dif_pos h]
  rfl

theorem upChar_eq_of_not_lower (c : Char) (h : ¬ (97 ≤ c.toNat ∧ c.toNat ≤ 122)) :
    upChar c = c := by
  unfold upChar
  rw [dif_neg h]

theorem upChar_idem (c : Char) : upChar (upChar c) = upChar c := by
  by_cases h : 97 ≤ c.toNat ∧ c.toNat ≤ 122
  · have ht : (upChar c).toNat = c.toNat - 32 := upChar_toNat_of_lower c h
    apply upChar_eq_of_not_lower
    omega
  · rw [upChar_eq_of_not_lower c h, upChar_eq_of_not_lower c h]

theorem upChar_ne_of_lower (c : Char) (h : isLowerAscii c = true) : upChar c ≠ c := by
  have hb : 97 ≤ c.toNat ∧ c.toNat ≤ 122 := by
    simpa [isLowerAscii] using h
  intro heq
  have := congrArg Char.toNat heq
  rw [upChar_toNat_of_lower c hb] at this
  omega

theorem jsUpper_idem (s : String) : jsUpper (jsUpper s) = jsUpper s := by
  cases s with
  | mk data =>
    simp [jsUpper, List.asString, String.toList, List.map_map, Function.comp_def, upChar_idem]

theorem map_fixes_mem {α : Type} (f : α → α) :
    ∀ l : List α, l.map f = l → ∀ a ∈ l, f a = a := by
  intro l
  induction l with
  | nil => intro _ a ha; simp at ha
  | cons x xs ih =>
    intro hmap a ha
    simp only [List.map_cons, List.cons.injEq] at hmap
    rcases List.mem_cons.mp ha with rfl | hmem
    · exact hmap.1
    · exact ih hmap.2 a hmem

theorem jsUpper_ne_of_has_lower (s : String)
    (h : s.toList.any isLowerAscii = true) : jsUpper s ≠ s := by
  cases s with
  | mk data =>
    simp only [String.toList] at h
    intro heq
    have hd : data.map upChar = data := by
      have h2 := congrArg String.toList heq
      simpa [jsUpper, List.asString, String.toList] using h2
    rw [List.any_eq_true] at h
    obtain ⟨c, hc, hlow⟩ := h
    exact upChar_ne_of_lower c hlow (map_fixes_mem upChar data hd c hc)

/-! ### Title Parser (`Channel.parseTitle`, src/scripts/parser.js lines 135-153) -/

/-- Test of the regex `/\[|\]/i`: does the token contain a bracket character? -/
def hasBracketChar (t : List Char) : Bool :=
  t.any (fun c => c = '[' || c = ']')

/-- Match of `\((\d+)P\)` (case-insensitive `P`) anchored at the head of the
list, returning the captured digits.  The digit run is forced: `\d+` is greedy
and a shorter run would put a digit where `P` must stand. -/
def parenPAt (l : List Char) : Option Nat :=
  match l with
  | '(' :: rest =>
    let ds := rest.takeWhile Char.isDigit
    match rest.dropWhile Char.isDigit with
    | p :: ')' :: _ =>
      if ds ≠ [] ∧ (p = 'P' || p = 'p') then some (digitsToNat ds) else none
    | _ => none
  | _ => none

/-- First (leftmost) match of `/\((\d+)P\)/i` anywhere in the list, as found by
`title.match`. -/
def findParenP (l : List Char) : Option Nat :=
  (l.tails.filterMap parenPAt).head?

/-- Test of the regex `/\((\d+)P\)/i` on a token. -/
def hasParenP (t : List Char) : Bool :=
  (findParenP t).isSome

/-- Greedy capture for `\[(.*)\]` at the position just after an opening
bracket: `.` does not match a newline and `.*` is greedy, so the capture runs
to the last closing bracket before the next newline; `none` when no closing
bracket exists on that line. -/
def bracketCaptureAfter (rest : List Char) : Option (List Char) :=
  match (rest.takeWhile (fun c => c ≠ '\n')).reverse.dropWhile (fun c => c ≠ ']') with
  | [] => none
  | _ :: revCap => some revCap.reverse

/-- First match of `/\[(.*)\]/i` in the list, as found by `title.match`: the
engine tries each start position from the left; at an opening bracket the
greedy capture must still find a closing bracket on the same line, otherwise
the engine moves on to the next position. -/
def bracketMatch : List Char → Option (List Char)
  | [] => none
  | c :: cs =>
    if c = '[' then
      match bracketCaptureAfter cs with
      | some cap => some cap
      | none => bracketMatch cs
    else bracketMatch cs

/-- Declared or probed stream resolution (`{width, height}` with `null`
modelled as `none`). -/
structure Resolution where
  width : Option Nat
  height : Option Nat
deriving DecidableEq, Repr

/-- Result of `Channel.parseTitle`. -/
structure TitleInfo where
  channelName : String
  streamStatus : Option String
  streamResolution : Resolution
deriving DecidableEq, Repr

/-- `Channel.parseTitle` (src/scripts/parser.js lines 135-153): trim the title,
split on single spaces, trim each token, drop every token containing a bracket
character or a `(<digits>P)` substring, rejoin with single spaces; extract the
first match of `/\[(.*)\]/i` as the stream status and the first match of
`/\((\d+)P\)/i` as the declared height (width stays `null`). -/
def parseTitle (title : String) : TitleInfo :=
  let toks := (splitChar ' ' (jsTrim title.toList)).map jsTrim
  let kept := toks.filter (fun s => !hasBracketChar s && !hasParenP s)
  { channelName := String.intercalate " " (kept.map List.asString)
    streamStatus := (bracketMatch title.toList).map List.asString
    streamResolution := { width := none, height := findParenP title.toList } }

/-- The contents of the first bracketed span on a character list: the text
between the first `[` and the next `]` after it. -/
def spanList (l : List Char) : Option (List Char) :=
  match l.dropWhile (fun c => c ≠ '[') with
  | [] => none
  | _ :: rest =>
    if rest.any (fun c => c = ']') then
      some (rest.takeWhile (fun c => c ≠ ']'))
    else none

/-- The claim's reading of the status rule: the contents of the first bracket
span `[...]`, i.e. the text between the first `[` and the next `]` after it. -/
def firstBracketSpan (title : String) : Option String :=
  (spanList title.toList).map List.asString

theorem bracketMatch_eq_none_of_no_close :
    ∀ l : List Char, (∀ x ∈ l, x ≠ ']') → bracketMatch l = none := by
  intro l
  induction l with
  | nil => intro _; rfl
  | cons c cs ih =>
    intro h
    have hcs : ∀ x ∈ cs, x ≠ ']' := fun x hx => h x (List.mem_cons_of_mem c hx)
    unfold bracketMatch
    by_cases hc : c = '['
    · rw [if_pos hc]
      have hcap : bracketCaptureAfter cs = none := by
        unfold bracketCaptureAfter
        have hnil : (cs.takeWhile (fun c => c ≠ '\n')).reverse.dropWhile
            (fun c => c ≠ ']') = [] := by
          rw [List.dropWhile_eq_nil_iff]
          intro x hx
          have hx2 : x ∈ cs.takeWhile (fun c => (c ≠ '\n' : Bool)) := List.mem_reverse.mp hx
          have hx3 : x ∈ cs := (List.takeWhile_sublist _).subset hx2
          simpa using hcs x hx3
        simp only [hnil]
      rw [hcap]
      exact ih hcs
    · rw [if_neg hc]
      exact ih hcs

theorem bracketCaptureAfter_eq_span (rest : List Char)
    (h1 : '\n' ∉ rest) (h2 : rest.count ']' ≤ 1) :
    bracketCaptureAfter rest =
      (if rest.any (fun c => c = ']') then
        some (rest.takeWhile (fun c => c ≠ ']')) else none) := by
  unfold bracketCaptureAfter
  have hline : rest.takeWhile (fun c => c ≠ '\n') = rest := by
    rw [List.takeWhile_eq_self_iff]
    intro x hx
    simp only [decide_eq_true_eq]
    intro hcon
    exact h1 (hcon ▸ hx)
  rw [hline]
  by_cases hany : rest.any (fun c => c = ']') = true
  · rw [if_pos hany]
    have hmem : ']' ∈ rest := by
      rw [List.any_eq_true] at hany
      obtain ⟨x, hx, hx2⟩ := hany
      simp only [decide_eq_true_eq] at hx2
      exact hx2 ▸ hx
    set a := rest.takeWhile (fun c => c ≠ ']') with ha
    set d := rest.dropWhile (fun c => c ≠ ']') with hd
    have hsplit : a ++ d = rest := List.takeWhile_append_dropWhile _ _
    have hdne : d ≠ [] := by
      intro hnil
      rw [hd, List.dropWhile_eq_nil_iff] at hnil
      have := hnil ']' hmem
      simp at this
    obtain ⟨hdhead, b, hdcons⟩ := List.exists_cons_of_ne_nil hdne
    have hdheadval : hdhead = ']' := by
      have := List.head?_dropWhile_not (fun c => (c ≠ ']' : Bool)) rest
      rw [← hd, hdcons] at this
      simpa using this
    subst hdheadval
    have hcounts : a.count ']' + (b.count ']' + 1) = rest.count ']' := by
      rw [← hsplit, hdcons, List.count_append, List.count_cons]
      simp
    have hbnomem : ']' ∉ b := by
      rw [← List.count_eq_zero]
      omega
    have hanomem : ∀ x ∈ a, x ≠ ']' := by
      intro x hx
      have := List.mem_takeWhile_imp (ha ▸ hx)
      simpa using this
    have hrev : rest.reverse = b.reverse ++ ']' :: a.reverse := by
      rw [← hsplit, hdcons]
      simp
    rw [hrev, List.dropWhile_append]
    have hbrev : b.reverse.dropWhile (fun c => c ≠ ']') = [] := by
      rw [List.dropWhile_eq_nil_iff]
      intro x hx
      have : x ∈ b := List.mem_reverse.mp hx
      simp only [decide_eq_true_eq]
      intro hcon
      exact hbnomem (hcon ▸ this)
    rw [hbrev]
    simp
  · rw [if_neg hany]
    have hnomem : ∀ x ∈ rest, x ≠ ']' := by
      intro x hx hcon
      apply hany
      rw [List.any_eq_true]
      exact ⟨x, hx, by simp [hcon]⟩
    have hnil : rest.reverse.dropWhile (fun c => c ≠ ']') = [] := by
      rw [List.dropWhile_eq_nil_iff]
      intro x hx
      simpa using hnomem x (List.mem_reverse.mp hx)
    simp only [hnil]

theorem bracketMatch_eq_spanList :
    ∀ l : List Char, '\n' ∉ l → l.count ']' ≤ 1 → bracketMatch l = spanList l := by
  intro l
  induction l with
  | nil => intro _ _; rfl
  | cons c cs ih =>
    intro h1 h2
    have h1cs : '\n' ∉ cs := fun hx => h1 (List.mem_cons_of_mem c hx)
    have h2cs : cs.count ']' ≤ 1 := by
      rw [List.count_cons] at h2
      omega
    unfold bracketMatch
    by_cases hc : c = '['
    · subst hc
      rw [if_pos rfl]
      have hdrop : (('[' : Char) :: cs).dropWhile (fun c => c ≠ '[') = '[' :: cs := by
        rw [List.dropWhile_cons]
        simp
      rw [bracketCaptureAfter_eq_span cs h1cs h2cs]
      simp only [spanList, hdrop]
      by_cases hany : cs.any (fun c => c = ']') = true
      · rw [if_pos hany]
      · rw [if_neg hany]
        show bracketMatch cs = none
        have hnomem : ∀ x ∈ cs, x ≠ ']' := by
          intro x hx hcon
          apply hany
          rw [List.any_eq_true]
          exact ⟨x, hx, by simp [hcon]⟩
        exact bracketMatch_eq_none_of_no_close cs hnomem
    · rw [if_neg hc]
      have hdrop : (c :: cs).dropWhile (fun c => c ≠ '[') =
          cs.dropWhile (fun c => c ≠ '[') := by
        rw [List.dropWhile_cons]
        simp [hc]
      simp only [spanList, hdrop]
      have := ih h1cs h2cs
      simp only [spanList] at this
      exact this

/-- C1 counterexample: the claim says the Title Parser extracts as `status` the
contents of the first bracket annotation only, but `title.match(/\[(.*)\]/i)` is
greedy: on `"A [HD] [SD]"` the code produces `"HD] [SD"`, not the first
annotation's contents `"HD"`. -/
theorem c1_counterexample :
    (parseTitle "A [HD] [SD]").streamStatus = some "HD] [SD" ∧
    firstBracketSpan "A [HD] [SD]" = some "HD" ∧
    (parseTitle "A [HD] [SD]").streamStatus ≠ firstBracketSpan "A [HD] [SD]" :=
  ⟨by decide, by decide, by decide⟩

/-- C1 amended: the Title Parser extracts as `status` the first greedy match of
`\[(.*)\]` — the text from the first viable `[` to the last `]` on its line —
which coincides with the contents of the first bracket annotation whenever the
title contains no newline and at most one `]`; bracket and `(<digits>P)` tokens
are removed from the display name, and `"BBC One [HD] (1080P)"` parses to
display name `"BBC One"`, status `"HD"` and height `1080`. -/
theorem c1_title_parsing :
    (∀ t : String, '\n' ∉ t.toList → t.toList.count ']' ≤ 1 →
      (parseTitle t).streamStatus = firstBracketSpan t) ∧
    parseTitle "BBC One [HD] (1080P)" =
      { channelName := "BBC One", streamStatus := some "HD",
        streamResolution := { width := none, height := some 1080 } } := by
  constructor
  · intro t h1 h2
    simp only [parseTitle, firstBracketSpan]
    rw [bracketMatch_eq_spanList t.toList h1 h2]
  · decide

/-- C1 witness: the amended status rule evaluated at a concrete title. -/
theorem c1_title_parsing_witness :
    '\n' ∉ "News [US] (720P)".toList ∧
    "News [US] (720P)".toList.count ']' ≤ 1 ∧
    (parseTitle "News [US] (720P)").streamStatus = firstBracketSpan "News [US] (720P)" :=
  ⟨by decide, by decide, c1_title_parsing.1 "News [US] (720P)" (by decide) (by decide)⟩

/-! ### Country resolution (`Channel.parseCountries`, src/scripts/parser.js lines 90-112) -/

/-- A resolved country `{code, name}`. -/
structure Country where
  code : String
  name : String
deriving DecidableEq, Repr

/-- One step of the `reduce` inside `Channel.parseCountries`: a token whose
region expansion is non-empty contributes each expanded code, skipping codes
already accumulated; a token that fails expansion is pushed literally,
unconditionally. -/
def countryAccStep (region2codes : String → List String)
    (acc : List String) (curr : String) : List String :=
  let codes := region2codes curr
  if codes ≠ [] then
    codes.foldl (fun a code => if code ∈ a then a else a ++ [code]) acc
  else acc ++ [curr]

/-- `Channel.parseCountries` (src/scripts/parser.js lines 90-112): split the
declared-country string on `;`, run the accumulator over the tokens, keep the
codes that are non-empty and that `code2name` resolves (JavaScript truthiness:
an empty name would also be dropped), then build `{code, name}` records with
lower-cased codes.  `region2codes` and `code2name` live in `scripts/utils.js`,
which is not part of the source tree, so they are parameters. -/
def parseCountries (region2codes : String → List String)
    (code2name : String → Option String) (s : String) : List Country :=
  let arr := ((jsSplit ';' s).foldl (countryAccStep region2codes) []).filter
    (fun code => code ≠ "" && (code2name code).getD "" ≠ "")
  arr.map (fun code => { code := jsLower code, name := (code2name code).getD "" })

/-- A region table in which no token expands (every lookup fails). -/
def noRegions : String → List String := fun _ => []

/-- A country lookup resolving only the codes `UK` and `US`. -/
def ukUsNames : String → Option String := fun c =>
  if c = "UK" then some "United Kingdom"
  else if c = "US" then some "United States" else none

/-- C2 counterexample: the claim says deduplication applies to the whole
resulting code list including literal tokens, but the code only deduplicates
region-expanded codes: literal tokens are pushed unconditionally, so the
declared string `"UK;UK"` yields the duplicated code list `["uk", "uk"]`. -/
theorem c2_counterexample :
    (parseCountries noRegions ukUsNames "UK;UK").map Country.code = ["uk", "uk"] ∧
    ¬ ((parseCountries noRegions ukUsNames "UK;UK").map Country.code).Nodup :=
  ⟨by decide, by decide⟩

/-- Inserting codes one by one, skipping those already present, preserves
`Nodup`. -/
theorem nodup_dedup_foldl (codes : List String) :
    ∀ acc : List String, acc.Nodup →
      (codes.foldl (fun a code => if code ∈ a then a else a ++ [code]) acc).Nodup := by
  induction codes with
  | nil => intro acc h; exact h
  | cons c cs ih =>
    intro acc h
    simp only [List.foldl_cons]
    by_cases hc : c ∈ acc
    · rw [if_pos hc]
      exact ih acc h
    · rw [if_neg hc]
      refine ih _ ?_
      simpa [List.nodup_append] using ⟨h, hc⟩

/-- C2 amended: deduplication applies only to region-expanded codes — each
expanded code is skipped when already accumulated, so if every token of the
declared string expands, the accumulated code list is duplicate-free; tokens
that fail expansion are appended literally and unconditionally and may
duplicate (C2 counterexample); when no token expands, the code list is exactly
the token list filtered by the lookup, so `"UK;US"` with both codes valid
yields `[{uk, United Kingdom}, {us, United States}]` in that order. -/
theorem c2_country_resolution :
    (∀ (region2codes : String → List String) (s : String),
      (∀ t ∈ jsSplit ';' s, region2codes t ≠ []) →
      ((jsSplit ';' s).foldl (countryAccStep region2codes) []).Nodup) ∧
    (∀ (code2name : String → Option String) (s : String),
      parseCountries noRegions code2name s =
        ((jsSplit ';' s).filter
          (fun code => code ≠ "" && (code2name code).getD "" ≠ "")).map
          (fun code => { code := jsLower code, name := (code2name code).getD "" })) ∧
    parseCountries noRegions ukUsNames "UK;US" =
      [{ code := "uk", name := "United Kingdom" },
       { code := "us", name := "United States" }] := by
  refine ⟨?_, ?_, by decide⟩
  · intro region2codes s hall
    have main : ∀ (ts : List String), (∀ t ∈ ts, region2codes t ≠ []) →
        ∀ acc : List String, acc.Nodup →
        (ts.foldl (countryAccStep region2codes) acc).Nodup := by
      intro ts
      induction ts with
      | nil => intro _ acc h; exact h
      | cons t ts ih =>
        intro hts acc h
        simp only [List.foldl_cons]
        have hstep : (countryAccStep region2codes acc t).Nodup := by
          unfold countryAccStep
          rw [if_pos (hts t (List.mem_cons_self t ts))]
          exact nodup_dedup_foldl _ acc h
        exact ih (fun x hx => hts x (List.mem_cons_of_mem t hx)) _ hstep
    exact main _ hall [] List.nodup_nil
  · intro code2name s
    unfold parseCountries
    have main : ∀ (ts : List String) (acc : List String),
        ts.foldl (countryAccStep noRegions) acc = acc ++ ts := by
      intro ts
      induction ts with
      | nil => intro acc; simp
      | cons t ts ih =>
        intro acc
        simp only [List.foldl_cons]
        have hstep : countryAccStep noRegions acc t = acc ++ [t] := by
          unfold countryAccStep noRegions
          simp
        rw [hstep, ih]
        simp
    rw [main]
    simp

/-- A region table expanding only the region `NORDIC`, with a duplicated
expansion list. -/
def regionsNordic : String → List String :=
  fun r => if r = "NORDIC" then ["SE", "NO", "SE"] else []

/-- C2 witness: the duplicate-free guarantee of the expansion path and the
literal-path characterization evaluated with concrete tables. -/
theorem c2_country_resolution_witness :
    ((jsSplit ';' "NORDIC").foldl (countryAccStep regionsNordic) []).Nodup ∧
    parseCountries noRegions ukUsNames "UK;US" =
      ((jsSplit ';' "UK;US").filter
        (fun code => code ≠ "" && (ukUsNames code).getD "" ≠ "")).map
        (fun code => { code := jsLower code, name := (ukUsNames code).getD "" }) :=
  ⟨c2_country_resolution.1 regionsNordic "NORDIC" (by decide),
    c2_country_resolution.2.1 ukUsNames "UK;US"⟩

/-! ### Channel Normalizer (`Channel` constructor and `parseData`,
src/scripts/parser.js lines 61-133) -/

/-- The `tvg` attribute bag of a playlist entry (`null`/absent as `""`). -/
structure Tvg where
  id : String
  name : String
  country : String
  language : String
  logo : String
  url : String
deriving DecidableEq, Repr

/-- Per-stream HTTP hints (`http['referrer']`, `http['user-agent']`). -/
structure HttpOpts where
  referrer : String
  userAgent : String
deriving DecidableEq, Repr

/-- A resolved language `{code, name}`. -/
structure Language where
  code : String
  name : String
deriving DecidableEq, Repr

/-- A category table row of `scripts/categories.js` (not part of the source
tree, so the table is a parameter). -/
structure Category where
  id : String
  name : String

/-- A raw playlist entry as produced by the playlist parser: free-text title,
`tvg` and `http` attribute bags, group title and stream URL (`""` when the
entry has no URL). -/
structure RawItem where
  name : String
  tvg : Tvg
  http : HttpOpts
  url : String
  groupTitle : String
deriving DecidableEq, Repr

/-- A playlist header: its attribute bag in insertion order. -/
structure Header where
  attrs : List (String × String)
deriving DecidableEq, Repr

/-- The canonical Channel record built by the normalizer. -/
structure Channel where
  tvg : Tvg
  http : HttpOpts
  url : String
  logo : String
  name : String
  status : Option String
  resolution : Resolution
  countries : List Country
  languages : List Language
  category : String
deriving DecidableEq, Repr

/-- The helper functions of `scripts/utils.js` and the table of
`scripts/categories.js`, neither of which is part of the source tree. -/
structure Env where
  region2codes : String → List String
  code2name : String → Option String
  language2code : String → Option String
  getBasename : String → String
  categories : List Category

/-- JavaScript `header.attrs[key] || ''`. -/
def attrOr (attrs : List (String × String)) (key : String) : String :=
  match attrs.find? (fun kv => kv.1 = key) with
  | some kv => kv.2
  | none => ""

/-- `Channel.parseLanguages` (src/scripts/parser.js lines 114-127): split on
`;`, resolve each non-empty token to a code, drop tokens with no (or a falsy)
code; order preserved, duplicates not collapsed. -/
def parseLanguages (language2code : String → Option String) (s : String) :
    List Language :=
  (jsSplit ';' s).filterMap (fun name =>
    if name = "" then none
    else
      match language2code name with
      | some code => if code = "" then none else some { code := code, name := name }
      | none => none)

/-- `Channel.parseCategory` (src/scripts/parser.js lines 129-133): look the
lower-cased group title up in the category table; `""` on a miss. -/
def parseCategory (categories : List Category) (s : String) : String :=
  match categories.find? (fun c => c.id = jsLower s) with
  | some c => c.name
  | none => ""

/-- `Channel.parseData` (src/scripts/parser.js lines 75-88). -/
def parseData (env : Env) (data : RawItem) : Channel :=
  let title := parseTitle data.name
  { tvg := data.tvg
    http := data.http
    url := data.url
    logo := data.tvg.logo
    name := title.channelName
    status := title.streamStatus
    resolution := title.streamResolution
    countries := parseCountries env.region2codes env.code2name data.tvg.country
    languages := parseLanguages env.language2code data.tvg.language
    category := parseCategory env.categories data.groupTitle }

/-- The fallback country list of the `Channel` constructor (src/scripts/parser.js
lines 66-68): the basename of the source playlist treated as a country code,
kept only when `code2name` resolves it (JavaScript truthiness on the name). -/
def fallbackCountries (env : Env) (sourceUrl : String) : List Country :=
  if (env.code2name (env.getBasename sourceUrl)).getD "" ≠ "" then
    [{ code := jsLower (env.getBasename sourceUrl),
       name := (env.code2name (env.getBasename sourceUrl)).getD "" }]
  else []

/-- The country-fallback step of the `Channel` constructor (src/scripts/parser.js
lines 65-70): when no countries resolved, install the fallback list and rewrite
`tvg.country` to the joined upper-cased codes. -/
def channelAfterFallback (env : Env) (sourceUrl : String) (c : Channel) : Channel :=
  if c.countries = [] then
    { c with
      countries := fallbackCountries env sourceUrl,
      tvg := { c.tvg with
        country := String.intercalate ";"
          ((fallbackCountries env sourceUrl).map (fun k => jsUpper k.code)) } }
  else c

/-- The final step of the `Channel` constructor (src/scripts/parser.js line 72):
`this.tvg.url = header.attrs['x-tvg-url'] || ''`. -/
def setTvgUrl (header : Header) (c : Channel) : Channel :=
  { c with tvg := { c.tvg with url := attrOr header.attrs "x-tvg-url" } }

/-- The `Channel` constructor (src/scripts/parser.js lines 61-73): run
`parseData`, apply the country fallback, copy the header's guide URL. -/
def mkChannel (env : Env) (header : Header) (sourceUrl : String)
    (data : RawItem) : Channel :=
  setTvgUrl header (channelAfterFallback env sourceUrl (parseData env data))

theorem setTvgUrl_countries (header : Header) (c : Channel) :
    (setTvgUrl header c).countries = c.countries := rfl

theorem channelAfterFallback_countries (env : Env) (sourceUrl : String) (c : Channel) :
    (channelAfterFallback env sourceUrl c).countries =
      if c.countries = [] then fallbackCountries env sourceUrl else c.countries := by
  unfold channelAfterFallback
  split
  case isTrue h => rfl
  case isFalse h => rfl

theorem parseData_countries (env : Env) (data : RawItem) :
    (parseData env data).countries =
      parseCountries env.region2codes env.code2name data.tvg.country := rfl

theorem mkChannel_countries (env : Env) (header : Header) (sourceUrl : String)
    (data : RawItem) :
    (mkChannel env header sourceUrl data).countries =
      if parseCountries env.region2codes env.code2name data.tvg.country = [] then
        fallbackCountries env sourceUrl
      else parseCountries env.region2codes env.code2name data.tvg.country := by
  unfold mkChannel
  rw [setTvgUrl_countries, channelAfterFallback_countries, parseData_countries]

/-- C3: after normalization, `countries` is non-empty whenever the declared
country field or the source file identity resolves; when the declared field
yields nothing, the result is exactly the single fallback country from the
source file basename, or empty when that code does not resolve either. -/
theorem c3_countries_fallback (env : Env) (header : Header) (sourceUrl : String)
    (data : RawItem) :
    ((parseCountries env.region2codes env.code2name data.tvg.country ≠ [] ∨
        (env.code2name (env.getBasename sourceUrl)).getD "" ≠ "") →
      (mkChannel env header sourceUrl data).countries ≠ []) ∧
    (parseCountries env.region2codes env.code2name data.tvg.country = [] →
      (mkChannel env header sourceUrl data).countries =
        (if (env.code2name (env.getBasename sourceUrl)).getD "" ≠ "" then
          [{ code := jsLower (env.getBasename sourceUrl),
             name := (env.code2name (env.getBasename sourceUrl)).getD "" }]
         else [])) := by
  constructor
  · intro hres
    rw [mkChannel_countries]
    by_cases hdecl :
        parseCountries env.region2codes env.code2name data.tvg.country = []
    · rw [if_pos hdecl]
      rcases hres with h | h
      · exact absurd hdecl h
      · unfold fallbackCountries
        rw [if_pos h]
        simp
    · rw [if_neg hdecl]
      exact hdecl
  · intro hdecl
    rw [mkChannel_countries, if_pos hdecl]
    rfl

/-! ### Playlist construction (`Playlist` constructor,
src/scripts/parser.js lines 34-41) -/

/-- A constructed Playlist: source URL, header, channel list. -/
structure Playlist where
  url : String
  header : Header
  channels : List Channel
deriving DecidableEq, Repr

/-- The `Playlist` constructor (src/scripts/parser.js lines 34-41): map every
raw item through the `Channel` constructor and keep only channels with a
truthy (non-empty) `url`. -/
def mkPlaylist (env : Env) (header : Header) (items : List RawItem)
    (url : String) : Playlist :=
  { url := url
    header := header
    channels := (items.map (mkChannel env header url)).filter (fun c => c.url ≠ "") }

theorem mkChannel_url (env : Env) (header : Header) (sourceUrl : String)
    (data : RawItem) : (mkChannel env header sourceUrl data).url = data.url := by
  unfold mkChannel setTvgUrl channelAfterFallback
  split <;> rfl

/-- C4: raw entries lacking a stream URL never become channels — the channel
list is exactly the channels built from the items with a non-empty URL — and
consequently no constructed Playlist contains a channel with an empty `url`. -/
theorem c4_url_required (env : Env) (header : Header) (items : List RawItem)
    (url : String) :
    (mkPlaylist env header items url).channels =
      (items.filter (fun i => i.url ≠ "")).map (mkChannel env header url) ∧
    (∀ c ∈ (mkPlaylist env header items url).channels, c.url ≠ "") := by
  constructor
  · show (items.map (mkChannel env header url)).filter (fun c => c.url ≠ "") = _
    rw [List.filter_map]
    congr 1
    apply List.filter_congr
    intro i _
    simp [Function.comp, mkChannel_url]
  · intro c hc
    have := List.of_mem_filter hc
    simpa using this

/-- An environment in which no lookup resolves and the basename is the
identity; used for concrete evaluations. -/
def envSimple : Env := ⟨fun _ => [], fun _ => none, fun _ => none, fun s => s, []⟩

/-- An environment resolving only the country codes `UK` and `US`. -/
def envUkUs : Env := ⟨noRegions, ukUsNames, fun _ => none, fun s => s, []⟩

/-- A raw entry declaring no country. -/
def itemNoCountry : RawItem := ⟨"A", ⟨"", "", "", "", "", ""⟩, ⟨"", ""⟩, "http://a", ""⟩

/-- C3 witness: with a concrete lookup table and an entry declaring no
country, the source file identity `UK` resolves, the normalized channel's
country list is non-empty and equals exactly the single fallback country. -/
theorem c3_countries_fallback_witness :
    (parseCountries envUkUs.region2codes envUkUs.code2name itemNoCountry.tvg.country ≠ [] ∨
      (envUkUs.code2name (envUkUs.getBasename "UK")).getD "" ≠ "") ∧
    (mkChannel envUkUs ⟨[]⟩ "UK" itemNoCountry).countries ≠ [] ∧
    parseCountries envUkUs.region2codes envUkUs.code2name itemNoCountry.tvg.country = [] ∧
    (mkChannel envUkUs ⟨[]⟩ "UK" itemNoCountry).countries =
      (if (envUkUs.code2name (envUkUs.getBasename "UK")).getD "" ≠ "" then
        [{ code := jsLower (envUkUs.getBasename "UK"),
           name := (envUkUs.code2name (envUkUs.getBasename "UK")).getD "" }]
       else []) :=
  ⟨Or.inr (by decide),
    (c3_countries_fallback envUkUs ⟨[]⟩ "UK" itemNoCountry).1 (Or.inr (by decide)),
    by decide,
    (c3_countries_fallback envUkUs ⟨[]⟩ "UK" itemNoCountry).2 (by decide)⟩

/-- A raw entry carrying a stream URL. -/
def itemWithUrl : RawItem := ⟨"A", ⟨"", "", "", "", "", ""⟩, ⟨"", ""⟩, "http://a", ""⟩

/-- A raw entry lacking a stream URL. -/
def itemNoUrl : RawItem := ⟨"B", ⟨"", "", "", "", "", ""⟩, ⟨"", ""⟩, "", ""⟩

/-- C4 witness: in a concrete two-item playlist, the channel built from the
entry with a URL is a member and its URL is non-empty. -/
theorem c4_url_required_witness :
    mkChannel envSimple ⟨[]⟩ "x.m3u" itemWithUrl ∈
      (mkPlaylist envSimple ⟨[]⟩ [itemWithUrl, itemNoUrl] "x.m3u").channels ∧
    (mkChannel envSimple ⟨[]⟩ "x.m3u" itemWithUrl).url ≠ "" :=
  ⟨by decide,
    (c4_url_required envSimple ⟨[]⟩ [itemWithUrl, itemNoUrl] "x.m3u").2 _ (by decide)⟩

/-! ### Deduplicator (`removeDuplicates`, src/unnamed/part_000 lines 86-101) -/

/-- The filter loop of `removeDuplicates`: `buffer` is the set of URLs already
seen; a channel passes exactly when its URL is not yet in the buffer, and its
URL is then added. -/
def dedupeGo (seen : List String) : List Channel → List Channel
  | [] => []
  | c :: cs =>
    if c.url ∈ seen then dedupeGo seen cs
    else c :: dedupeGo (c.url :: seen) cs

/-- `removeDuplicates` (src/unnamed/part_000 lines 86-101) on the channel
list: keep a channel exactly when its `url` was not seen before. -/
def removeDuplicates (l : List Channel) : List Channel := dedupeGo [] l

/-- The `removeDuplicates` pipeline stage on a Playlist. -/
def removeDuplicatesP (p : Playlist) : Playlist :=
  { p with channels := removeDuplicates p.channels }

/-- The specification of stable first-seen-wins deduplication keyed strictly
by `url`: keep the head, then deduplicate the tail purged of the head's URL. -/
def firstSeenSpec : List Channel → List Channel
  | [] => []
  | c :: cs => c :: firstSeenSpec (cs.filter (fun d => d.url ≠ c.url))
termination_by l => l.length
decreasing_by
  simp only [List.length_cons]
  exact Nat.lt_succ_of_le (List.length_filter_le _ cs)

theorem dedupeGo_eq_firstSeenSpec (l : List Channel) :
    ∀ seen : List String,
      dedupeGo seen l = firstSeenSpec (l.filter (fun c => c.url ∉ seen)) := by
  induction l with
  | nil => intro seen; simp [dedupeGo, firstSeenSpec]
  | cons c cs ih =>
    intro seen
    by_cases h : c.url ∈ seen
    · rw [dedupeGo, if_pos h, List.filter_cons_of_neg (by simpa using h)]
      exact ih seen
    · rw [dedupeGo, if_neg h, List.filter_cons_of_pos (by simpa using h), firstSeenSpec]
      rw [ih (c.url :: seen), List.filter_filter]
      congr 2
      apply List.filter_congr
      intro d _
      by_cases h1 : d.url = c.url <;> by_cases h2 : d.url ∈ seen <;>
        simp [h1, h2, List.mem_cons]

theorem removeDuplicates_eq_firstSeenSpec (l : List Channel) :
    removeDuplicates l = firstSeenSpec l := by
  unfold removeDuplicates
  rw [dedupeGo_eq_firstSeenSpec]
  congr 1
  apply List.filter_eq_self.mpr
  intro a _
  simp

theorem firstSeenSpec_sublist :
    ∀ l : List Channel, List.Sublist (firstSeenSpec l) l := by
  intro l
  induction l using firstSeenSpec.induct with
  | case1 => simp [firstSeenSpec]
  | case2 c cs ih =>
    rw [firstSeenSpec]
    exact (ih.trans (List.filter_sublist cs)).cons₂ c

theorem firstSeenSpec_idem : ∀ l : List Channel,
    firstSeenSpec (firstSeenSpec l) = firstSeenSpec l := by
  intro l
  induction l using firstSeenSpec.induct with
  | case1 => simp [firstSeenSpec]
  | case2 c cs ih =>
    rw [firstSeenSpec, firstSeenSpec]
    congr 1
    have hS : (firstSeenSpec (cs.filter (fun d => d.url ≠ c.url))).filter
        (fun d => d.url ≠ c.url) = firstSeenSpec (cs.filter (fun d => d.url ≠ c.url)) := by
      apply List.filter_eq_self.mpr
      intro d hd
      have hmem : d ∈ cs.filter (fun d => d.url ≠ c.url) :=
        (firstSeenSpec_sublist _).subset hd
      rw [List.mem_filter] at hmem
      exact hmem.2
    rw [hS, ih]

theorem removeDuplicates_idem (l : List Channel) :
    removeDuplicates (removeDuplicates l) = removeDuplicates l := by
  simp [removeDuplicates_eq_firstSeenSpec, firstSeenSpec_idem]

/-- C5: deduplication keeps, for each exact `url` string, the first-seen
channel — the channel list becomes exactly the stable first-seen-wins
specification, with no URL normalization — and it is idempotent on
Playlists. -/
theorem c5_dedupe_first_seen_idempotent (p : Playlist) :
    (removeDuplicatesP p).channels = firstSeenSpec p.channels ∧
    removeDuplicatesP (removeDuplicatesP p) = removeDuplicatesP p := by
  constructor
  · exact removeDuplicates_eq_firstSeenSpec p.channels
  · simp [removeDuplicatesP, removeDuplicates_idem]

/-! ### Sorter and the sort-then-dedupe pipeline order
(src/unnamed/part_000 lines 34-43 and 79-84) -/

/-- Strict lexicographic comparison of character lists by code point — the
plain, locale-independent string order of the spec's Sorter. -/
def listLt : List Char → List Char → Bool
  | [], [] => false
  | [], _ :: _ => true
  | _ :: _, [] => false
  | a :: as, b :: bs =>
    if a.toNat < b.toNat then true
    else if b.toNat < a.toNat then false
    else listLt as bs

/-- Strict plain string order. -/
def strLt (a b : String) : Bool := listLt a.toList b.toList

/-- Reflexive plain string order (total: `a ≤ b` iff not `b < a`). -/
def strLE (a b : String) : Bool := !(strLt b a)

theorem listLt_irrefl : ∀ l : List Char, listLt l l = false := by
  intro l
  induction l with
  | nil => rfl
  | cons a as ih =>
    unfold listLt
    simp [ih]

theorem listLt_asymm : ∀ a b : List Char,
    listLt a b = true → listLt b a = false := by
  intro a
  induction a with
  | nil =>
    intro b h
    cases b with
    | nil => rfl
    | cons x xs => rfl
  | cons x xs ih =>
    intro b h
    cases b with
    | nil => simp [listLt] at h
    | cons y ys =>
      unfold listLt at h ⊢
      by_cases h1 : x.toNat < y.toNat
      · have h2 : ¬ y.toNat < x.toNat := by omega
        simp [h1, h2]
      · by_cases h2 : y.toNat < x.toNat
        · simp [h1, h2] at h
        · simp [h1, h2] at h ⊢
          exact ih ys h

theorem strLt_ne (a b : String) (h : strLt a b = true) : a ≠ b := by
  intro heq
  subst heq
  rw [strLt, listLt_irrefl] at h
  exact Bool.false_ne_true h

/-- Modelled from the spec: `sortChannels` calls
`utils.sortBy(playlist.channels, ['name', 'url'])` and `utils` is not under
`src/`; spec section 4.4 defines the Sorter as a stable sort by the tuple
`(name, url)`, both compared as plain lexicographic strings.  This is the
comparison of that tuple order. -/
def chanLE (a b : Channel) : Bool :=
  if a.name ≠ b.name then strLt a.name b.name else strLE a.url b.url

/-- Modelled from the spec: stable insertion of a channel into a sorted list —
a new element goes before the first existing element it compares
less-or-equal to. -/
def insertCh (c : Channel) : List Channel → List Channel
  | [] => [c]
  | d :: ds => if chanLE c d then c :: d :: ds else d :: insertCh c ds

/-- Modelled from the spec: stable insertion sort by `(name, url)`,
processing from the right so that earlier elements are inserted last and land
before equal later ones. -/
def sortChannelsList (l : List Channel) : List Channel := l.foldr insertCh []

/-- The `sortChannels` pipeline stage on a Playlist. -/
def sortChannelsP (p : Playlist) : Playlist :=
  { p with channels := sortChannelsList p.channels }

/-- The pipeline's stage order for these two stages (src/unnamed/part_000
lines 34-43): `sortChannels` runs before `removeDuplicates`. -/
def sortThenDedupe (p : Playlist) : Playlist :=
  removeDuplicatesP (sortChannelsP p)

/-- A concrete channel named `"B"`. -/
def chanB : Channel :=
  { tvg := ⟨"", "", "", "", "", ""⟩, http := ⟨"", ""⟩, url := "http://x/stream",
    logo := "", name := "B", status := none, resolution := ⟨none, none⟩,
    countries := [], languages := [], category := "" }

/-- A concrete channel sharing `chanB`'s URL but named `"A"`. -/
def chanA : Channel := { chanB with name := "A" }

/-- A playlist listing `chanB` before `chanA`. -/
def playlistBA : Playlist := ⟨"ch.m3u", ⟨[]⟩, [chanB, chanA]⟩

/-- C6 counterexample: in the pipeline the sort runs before the dedupe, so for
two entries with the same `url` but different `name` the survivor is the first
in sorted `(name, url)` order, not the first-encountered pre-sort entry:
with pre-sort order `[chanB, chanA]` the survivor is `chanA`. -/
theorem c6_counterexample :
    chanA.url = chanB.url ∧ chanA.name ≠ chanB.name ∧
    playlistBA.channels = [chanB, chanA] ∧
    (sortThenDedupe playlistBA).channels = [chanA] ∧
    (sortThenDedupe playlistBA).channels ≠ [chanB] :=
  ⟨by decide, by decide, by decide, by decide, by decide⟩

/-- C6 amended: for a playlist holding exactly two entries with identical
`url` and different `name`, the sort-then-dedupe stage order keeps exactly the
entry that comes first in the `(name, url)` sort order — the one with the
lexicographically smaller name — regardless of which of the two came first in
the raw playlist. -/
theorem c6_sort_then_dedupe (p q : Playlist) (c d : Channel)
    (hp : p.channels = [c, d]) (hq : q.channels = [d, c])
    (hurl : c.url = d.url) (hname : strLt c.name d.name = true) :
    (sortThenDedupe p).channels = [c] ∧ (sortThenDedupe q).channels = [c] := by
  have hne : c.name ≠ d.name := strLt_ne _ _ hname
  have hle : chanLE c d = true := by
    unfold chanLE
    rw [if_pos hne]
    exact hname
  have hnle : chanLE d c = false := by
    unfold chanLE
    rw [if_pos hne.symm]
    exact listLt_asymm _ _ hname
  have hsorted : sortChannelsList [c, d] = [c, d] := by
    simp [sortChannelsList, insertCh, hle]
  have hsorted2 : sortChannelsList [d, c] = [c, d] := by
    simp [sortChannelsList, insertCh, hnle]
  have hdedupe : removeDuplicates [c, d] = [c] := by
    simp [removeDuplicates, dedupeGo, ← hurl]
  constructor
  · show (removeDuplicatesP (sortChannelsP p)).channels = [c]
    simp only [removeDuplicatesP, sortChannelsP, hp]
    rw [hsorted]
    exact hdedupe
  · show (removeDuplicatesP (sortChannelsP q)).channels = [c]
    simp only [removeDuplicatesP, sortChannelsP, hq]
    rw [hsorted2]
    exact hdedupe

/-- C6 witness: the amended ordering rule evaluated on the concrete
two-channel playlists. -/
theorem c6_sort_then_dedupe_witness :
    playlistBA.channels = [chanB, chanA] ∧
    (⟨"ch.m3u", ⟨[]⟩, [chanA, chanB]⟩ : Playlist).channels = [chanA, chanB] ∧
    chanA.url = chanB.url ∧ strLt chanA.name chanB.name = true ∧
    (sortThenDedupe (⟨"ch.m3u", ⟨[]⟩, [chanA, chanB]⟩ : Playlist)).channels = [chanA] ∧
    (sortThenDedupe playlistBA).channels = [chanA] :=
  ⟨by decide, by decide, by decide, by decide,
    (c6_sort_then_dedupe ⟨"ch.m3u", ⟨[]⟩, [chanA, chanB]⟩ playlistBA chanA chanB
      (by decide) (by decide) (by decide) (by decide)).1,
    (c6_sort_then_dedupe ⟨"ch.m3u", ⟨[]⟩, [chanA, chanB]⟩ playlistBA chanA chanB
      (by decide) (by decide) (by decide) (by decide)).2⟩

/-! ### Resolution Prober (`parseResolution`, src/unnamed/part_000 lines 135-148) -/

/-- A parsed `RESOLUTION=<W>x<H>` variant marker. -/
structure StreamRes where
  width : Nat
  height : Nat
deriving DecidableEq, Repr

/-- Drop an exact literal from the front of a list, or fail. -/
def dropLiteral : List Char → List Char → Option (List Char)
  | [], l => some l
  | _ :: _, [] => none
  | p :: ps, c :: cs => if p = c then dropLiteral ps cs else none

/-- One match of `RESOLUTION=(\d+)x(\d+)` anchored at the head of the list:
the literal, a non-empty digit run, `x` (lower case — the regex has no `i`
flag), a non-empty digit run; returns the parsed pair and the rest of the
input after the match. -/
def matchResAt (l : List Char) : Option (StreamRes × List Char) :=
  match dropLiteral "RESOLUTION=".toList l with
  | none => none
  | some r0 =>
    let d1 := r0.takeWhile Char.isDigit
    if d1 = [] then none
    else
      match r0.dropWhile Char.isDigit with
      | 'x' :: r2 =>
        let d2 := r2.takeWhile Char.isDigit
        if d2 = [] then none
        else some (⟨digitsToNat d1, digitsToNat d2⟩, r2.dropWhile Char.isDigit)
      | _ => none

/-- The scan of `string.matchAll(/RESOLUTION=(\d+)x(\d+)/gm)`: try the pattern
at each position from the left; on a match, continue after the match (matches
do not overlap); otherwise advance one character.  The fuel argument is
initialized to the input length, which bounds the number of steps because
every step consumes at least one character. -/
def scanResGo : Nat → List Char → List StreamRes
  | 0, _ => []
  | _ + 1, [] => []
  | fuel + 1, c :: cs =>
    match matchResAt (c :: cs) with
    | some (r, rest) => r :: scanResGo fuel rest
    | none => scanResGo fuel cs

/-- All `RESOLUTION=<W>x<H>` matches of the body, in order. -/
def scanResolutions (l : List Char) : List StreamRes := scanResGo l.length l

/-- The body of the `reduce` in `parseResolution` (src/unnamed/part_000 lines
144-146): keep `prev` only when strictly taller, otherwise take `current` —
so equal heights fall through to `current`. -/
def pickTaller (prev curr : StreamRes) : StreamRes :=
  if prev.height > curr.height then prev else curr

/-- `parseResolution` (src/unnamed/part_000 lines 135-148): collect all
variant markers and reduce them with `pickTaller`; `undefined` (here `none`)
when the body declares none. -/
def parseResolution (s : String) : Option StreamRes :=
  match scanResolutions s.toList with
  | [] => none
  | r :: rs => some (rs.foldl pickTaller r)

/-- Specification of the selection from the right: the greatest height, with
a later variant winning ties. -/
def lastTallest : List StreamRes → Option StreamRes
  | [] => none
  | r :: rs =>
    match lastTallest rs with
    | none => some r
    | some m => if r.height > m.height then some r else some m

/-- The claim's tie-break: the first variant whose height is maximal. -/
def firstTallest (l : List StreamRes) : Option StreamRes :=
  l.find? (fun r => l.all (fun q => q.height ≤ r.height))

/-- C7 counterexample: the claim says that among variants tying on the
greatest height the first encountered wins, but the reduce keeps `prev` only
when strictly taller, so the last of the tying variants wins: a body declaring
`100x720` then `200x720` yields `{200, 720}`, not the first-encountered
`{100, 720}`. -/
theorem c7_counterexample :
    parseResolution "#EXTM3U\nRESOLUTION=100x720\nRESOLUTION=200x720" =
      some ⟨200, 720⟩ ∧
    firstTallest
      (scanResolutions "#EXTM3U\nRESOLUTION=100x720\nRESOLUTION=200x720".toList) =
      some ⟨100, 720⟩ ∧
    parseResolution "#EXTM3U\nRESOLUTION=100x720\nRESOLUTION=200x720" ≠
      firstTallest
        (scanResolutions "#EXTM3U\nRESOLUTION=100x720\nRESOLUTION=200x720".toList) :=
  ⟨by decide, by decide, by decide⟩

theorem lastTallest_cons_pick (a x : StreamRes) (t : List StreamRes) :
    lastTallest (pickTaller a x :: t) = lastTallest (a :: x :: t) := by
  rw [lastTallest, lastTallest, lastTallest]
  cases hm : lastTallest t with
  | none =>
    unfold pickTaller
    by_cases h1 : a.height > x.height <;> simp [h1]
  | some m =>
    unfold pickTaller
    by_cases h1 : a.height > x.height <;> by_cases h2 : x.height > m.height <;>
      by_cases h3 : a.height > m.height <;> simp [h1, h2, h3] <;> omega

theorem foldl_pickTaller_eq_lastTallest :
    ∀ (t : List StreamRes) (a : StreamRes),
      some (t.foldl pickTaller a) = lastTallest (a :: t) := by
  intro t
  induction t with
  | nil => intro a; rfl
  | cons x t ih =>
    intro a
    rw [List.foldl_cons, ih (pickTaller a x), lastTallest_cons_pick]

/-- C7 amended: the selected resolution is the variant with the greatest
height, and when several variants tie on the greatest height the LAST
encountered wins (the reduce keeps the earlier variant only when strictly
taller); a body containing `RESOLUTION=1280x720` then `RESOLUTION=1920x1080`
still yields `{width 1920, height 1080}`. -/
theorem c7_resolution_selection :
    (∀ s : String, parseResolution s = lastTallest (scanResolutions s.toList)) ∧
    parseResolution "#EXTM3U\nRESOLUTION=1280x720\nRESOLUTION=1920x1080" =
      some ⟨1920, 1080⟩ := by
  constructor
  · intro s
    unfold parseResolution
    cases hscan : scanResolutions s.toList with
    | nil => rfl
    | cons r rs => exact foldl_pickTaller_eq_lastTallest rs r
  · decide

/-! ### EPG Merger (`updateFromEPG`, src/unnamed/part_000 lines 150-182) -/

/-- One declared name of an EPG channel entry (`lang` is `""` when absent,
matching JavaScript falsiness). -/
structure EpgName where
  value : String
  lang : String
deriving DecidableEq, Repr

/-- An EPG index entry: declared names and icons. -/
structure EpgItem where
  name : List EpgName
  icon : List String
deriving DecidableEq, Repr

/-- The per-channel body of `updateFromEPG` (src/unnamed/part_000 lines
162-175).  `epgChannels` is the EPG index `channel-id → entry`;
`epgParseLanguages` stands for `utils.parseLanguages`, which is not under
`src/`.  JavaScript truthiness: a channel without a guide id, or with an id
missing from the index, is left unchanged; each empty field is filled
independently from the guide entry. -/
def updateChannelFromEPG (epgParseLanguages : String → List Language)
    (epgChannels : String → Option EpgItem) (c : Channel) : Channel :=
  if c.tvg.id = "" then c
  else
    match epgChannels c.tvg.id with
    | none => c
    | some item =>
      let newName :=
        if c.tvg.name = "" ∧ item.name ≠ [] then (item.name.headD ⟨"", ""⟩).value
        else c.tvg.name
      let newLanguages :=
        if c.languages = [] ∧ item.name ≠ [] ∧ (item.name.headD ⟨"", ""⟩).lang ≠ "" then
          epgParseLanguages (item.name.headD ⟨"", ""⟩).lang
        else c.languages
      let newLogo :=
        if c.logo = "" ∧ item.icon ≠ [] then item.icon.headD "" else c.logo
      { c with
        tvg := { c.tvg with name := newName },
        languages := newLanguages,
        logo := newLogo }

/-- The `updateFromEPG` pipeline stage on a Playlist (the channel mapping of
src/unnamed/part_000 line 162; the object mutation makes the `map` act as a
per-channel update). -/
def updateFromEPG (epgParseLanguages : String → List Language)
    (epgChannels : String → Option EpgItem) (p : Playlist) : Playlist :=
  { p with channels := p.channels.map (updateChannelFromEPG epgParseLanguages epgChannels) }

/-- C8: the EPG merge never overwrites a populated field — a non-empty
`tvg.name`, a non-empty `languages` list and a non-empty `logo` survive the
merge unchanged, whatever the guide contains, and each field's decision is
its own. -/
theorem c8_epg_no_overwrite (epgParseLanguages : String → List Language)
    (epgChannels : String → Option EpgItem) (c : Channel) :
    (c.tvg.name ≠ "" →
      (updateChannelFromEPG epgParseLanguages epgChannels c).tvg.name = c.tvg.name) ∧
    (c.languages ≠ [] →
      (updateChannelFromEPG epgParseLanguages epgChannels c).languages = c.languages) ∧
    (c.logo ≠ "" →
      (updateChannelFromEPG epgParseLanguages epgChannels c).logo = c.logo) := by
  unfold updateChannelFromEPG
  by_cases hid : c.tvg.id = ""
  · rw [if_pos hid]
    exact ⟨fun _ => rfl, fun _ => rfl, fun _ => rfl⟩
  · rw [if_neg hid]
    cases hitem : epgChannels c.tvg.id with
    | none => exact ⟨fun _ => rfl, fun _ => rfl, fun _ => rfl⟩
    | some item =>
      refine ⟨fun hname => ?_, fun hlang => ?_, fun hlogo => ?_⟩
      · show (if c.tvg.name = "" ∧ item.name ≠ [] then _ else c.tvg.name) = c.tvg.name
        rw [if_neg (fun hcon => hname hcon.1)]
      · show (if c.languages = [] ∧ _ then _ else c.languages) = c.languages
        rw [if_neg (fun hcon => hlang hcon.1)]
      · show (if c.logo = "" ∧ item.icon ≠ [] then _ else c.logo) = c.logo
        rw [if_neg (fun hcon => hlogo hcon.1)]

/-- A channel whose name, languages and logo are already populated. -/
def chanFull : Channel :=
  { tvg := ⟨"id1", "Full Name", "", "", "", ""⟩, http := ⟨"", ""⟩,
    url := "http://x/full", logo := "http://x/logo.png", name := "Full",
    status := none, resolution := ⟨none, none⟩, countries := [],
    languages := [⟨"en", "English"⟩], category := "" }

/-- A guide entry that would offer a different name, language and icon. -/
def epgRich : String → Option EpgItem := fun id =>
  if id = "id1" then some ⟨[⟨"Other Name", "fr"⟩], ["http://x/other.png"]⟩ else none

/-- C8 witness: the populated channel keeps its name, languages and logo
against a guide entry offering replacements for all three. -/
theorem c8_epg_no_overwrite_witness :
    chanFull.tvg.name ≠ "" ∧
    (updateChannelFromEPG (fun _ => [⟨"fr", "fr"⟩]) epgRich chanFull).tvg.name =
      chanFull.tvg.name ∧
    (updateChannelFromEPG (fun _ => [⟨"fr", "fr"⟩]) epgRich chanFull).languages =
      chanFull.languages ∧
    (updateChannelFromEPG (fun _ => [⟨"fr", "fr"⟩]) epgRich chanFull).logo =
      chanFull.logo :=
  ⟨by decide,
    (c8_epg_no_overwrite (fun _ => [⟨"fr", "fr"⟩]) epgRich chanFull).1 (by decide),
    (c8_epg_no_overwrite (fun _ => [⟨"fr", "fr"⟩]) epgRich chanFull).2.1 (by decide),
    (c8_epg_no_overwrite (fun _ => [⟨"fr", "fr"⟩]) epgRich chanFull).2.2 (by decide)⟩

/-! ### Serialization (`Channel.toString` src/scripts/parser.js lines 170-198,
`Playlist.toString` lines 43-58)

`Channel.toString` first executes `this.tvg.country = this.tvg.country.toUpperCase()`
and only then renders the template, so it is modelled as a state-passing
function returning both the rendered text and the mutated channel. -/

/-- The mutation at the top of `Channel.toString` (src/scripts/parser.js line
171): upper-case the stored `tvg.country` in place. -/
def upperCountry (c : Channel) : Channel :=
  { c with tvg := { c.tvg with country := jsUpper c.tvg.country } }

/-- The `tvgUrl` getter (src/scripts/parser.js lines 166-168):
`(this.tvg.id || this.tvg.name) && this.tvg.url ? this.tvg.url : ''`. -/
def tvgUrl (c : Channel) : String :=
  if (c.tvg.id ≠ "" ∨ c.tvg.name ≠ "") ∧ c.tvg.url ≠ "" then c.tvg.url else ""

/-- The text rendered by `Channel.toString` (src/scripts/parser.js lines
173-197), reading the channel state after the country mutation.  JavaScript
truthiness: the `(<height>p)` annotation is emitted only for a non-null,
non-zero height, the `[<status>]` annotation only for a non-null, non-empty
status, and the transport-hint lines only for non-empty values. -/
def channelBody (short : Bool) (c : Channel) : String :=
  let info0 := "-1 tvg-id=\"" ++ c.tvg.id ++ "\" tvg-name=\"" ++ c.tvg.name ++
    "\" tvg-country=\"" ++ c.tvg.country ++ "\" tvg-language=\"" ++ c.tvg.language ++
    "\" tvg-logo=\"" ++ c.logo ++ "\""
  let info1 := if short then info0 else info0 ++ " tvg-url=\"" ++ tvgUrl c ++ "\""
  let info2 := info1 ++ " group-title=\"" ++ c.category ++ "\"," ++ c.name
  let info3 :=
    if c.resolution.height.getD 0 ≠ 0 then
      info2 ++ " (" ++ toString (c.resolution.height.getD 0) ++ "p)"
    else info2
  let info4 :=
    if c.status.getD "" ≠ "" then info3 ++ " [" ++ c.status.getD "" ++ "]" else info3
  let info5 :=
    if c.http.referrer ≠ "" then
      info4 ++ "\n#EXTVLCOPT:http-referrer=" ++ c.http.referrer
    else info4
  let info6 :=
    if c.http.userAgent ≠ "" then
      info5 ++ "\n#EXTVLCOPT:http-user-agent=" ++ c.http.userAgent
    else info5
  "#EXTINF:" ++ info6 ++ "\n" ++ c.url ++ "\n"

/-- `Channel.toString` (src/scripts/parser.js lines 170-198): mutate the
country, then render from the mutated state. -/
def channelToString (short : Bool) (c : Channel) : String × Channel :=
  (channelBody short (upperCountry c), upperCountry c)

/-- Serialize a channel list left to right, threading the mutations. -/
def channelsSerialize (short : Bool) : List Channel → String × List Channel
  | [] => ("", [])
  | c :: cs =>
    ((channelToString short c).1 ++ (channelsSerialize short cs).1,
     (channelToString short c).2 :: (channelsSerialize short cs).2)

/-- The header line of `Playlist.toString` (src/scripts/parser.js lines
44-52): `#EXTM3U` followed by every non-empty header attribute, joined by
single spaces. -/
def headerLine (attrs : List (String × String)) : String :=
  String.intercalate " "
    ("#EXTM3U" :: (attrs.filter (fun kv => kv.2 ≠ "")).map
      (fun kv => kv.1 ++ "=\"" ++ kv.2 ++ "\"")) ++ "\n"

/-- `Playlist.toString` (src/scripts/parser.js lines 43-58), with the channel
mutations threaded into the returned Playlist state. -/
def playlistToString (short : Bool) (p : Playlist) : String × Playlist :=
  (headerLine p.header.attrs ++ (channelsSerialize short p.channels).1,
   { p with channels := (channelsSerialize short p.channels).2 })

theorem upperCountry_idem (c : Channel) :
    upperCountry (upperCountry c) = upperCountry c := by
  simp [upperCountry, jsUpper_idem]

theorem channelToString_stable (short : Bool) (c : Channel) :
    channelToString short ((channelToString short c).2) = channelToString short c := by
  show channelToString short (upperCountry c) = _
  unfold channelToString
  rw [upperCountry_idem]

theorem channelsSerialize_stable (short : Bool) :
    ∀ l : List Channel,
      channelsSerialize short ((channelsSerialize short l).2) =
        channelsSerialize short l := by
  intro l
  induction l with
  | nil => rfl
  | cons c cs ih =>
    show channelsSerialize short
      ((channelToString short c).2 :: (channelsSerialize short cs).2) = _
    simp only [channelsSerialize]
    rw [channelToString_stable, ih]

/-- C9: serialization is idempotent on repeated runs — serializing the
Playlist state left behind by a first serialization produces byte-identical
text and the same state again, so every further run reproduces the same
output. -/
theorem c9_serialize_idempotent (short : Bool) (p : Playlist) :
    playlistToString short ((playlistToString short p).2) =
      playlistToString short p := by
  unfold playlistToString
  dsimp only
  rw [channelsSerialize_stable]

/-- C10: `Channel.toString` is not a pure read — it replaces the stored
`tvg.country` with its upper-cased value in place, so whenever that attribute
contains an ASCII lower-case letter the channel state after serialization
differs from the state before. -/
theorem c10_serialize_mutates (short : Bool) (c : Channel) :
    (channelToString short c).2 =
      { c with tvg := { c.tvg with country := jsUpper c.tvg.country } } ∧
    (c.tvg.country.toList.any isLowerAscii = true →
      (channelToString short c).2 ≠ c) := by
  constructor
  · rfl
  · intro hlow heq
    have hc : jsUpper c.tvg.country = c.tvg.country :=
      congrArg (fun ch => ch.tvg.country) heq
    exact jsUpper_ne_of_has_lower _ hlow hc

/-- A channel whose declared country is stored lower-case. -/
def chanLc : Channel := { chanB with tvg := ⟨"", "", "uk", "", "", ""⟩ }

/-- C10 witness: serializing a channel whose `tvg.country` is `"uk"` leaves a
different channel state behind. -/
theorem c10_serialize_mutates_witness :
    chanLc.tvg.country.toList.any isLowerAscii = true ∧
    (channelToString true chanLc).2 ≠ chanLc :=
  ⟨by decide, (c10_serialize_mutates true chanLc).2 (by decide)⟩

end Iptv
